import Mathlib

/-!
Verification of the content normalization and aggregation pipeline of the
websearch MCP server (sources: `src/utils/markdown.ts`, `src/worker.ts`,
`src/tools/webSearch.ts`).

Strings are modelled as `List Char`.  The JS regex replaces of the Structure
Cleaner are modelled by character-level scanners with first-match (lazy)
semantics; the optional Workers-AI conversion backend is an abstract function
producing either a value or a thrown error; JS `null` on the `text` field of a
result is an `Option`, and a JS `TypeError` raised by dereferencing `null` is
the `Except.error` case of the per-item renderer.
-/

namespace WebsearchMcp

/-- Character list of a string literal, the concrete string representation used
throughout the embedding.  (JS strings are UTF-16 unit sequences; all the
constants involved are ASCII, so the scalar-value view coincides.) -/
def cs (s : String) : List Char := s.data

/-- JS whitespace class (regex `\s`), restricted to the code points that matter
here: space, tab, LF, CR, VT, FF and NBSP. -/
def isWs (c : Char) : Bool :=
  c = ' ' || c = '\t' || c = '\n' || c = '\r' || c.toNat = 11 || c.toNat = 12 || c.toNat = 160

/-- ASCII lower-casing on code points, modelling the case-insensitive regex flag. -/
def lowerN (n : Nat) : Nat := if 65 ≤ n ∧ n ≤ 90 then n + 32 else n

/-- Case-insensitive character comparison (regex `i` flag, ASCII case folding). -/
def charCI (a b : Char) : Bool := lowerN a.toNat == lowerN b.toNat

/-- Match a pattern case-insensitively at the head of the input; on success
return the remaining input. -/
def dropCI : List Char → List Char → Option (List Char)
  | [], s => some s
  | _ :: _, [] => none
  | p :: ps, c :: rest => if charCI p c then dropCI ps rest else none

/-- Scan for the first occurrence of `pat` (case-insensitively) and return the
input after it: the lazy any-char gap followed by `pat` inside the block
regexes. -/
def findCloseCI (pat : List Char) : List Char → Option (List Char)
  | [] => dropCI pat []
  | c :: rest =>
    match dropCI pat (c :: rest) with
    | some r => some r
    | none => findCloseCI pat rest

/-- Consume the remainder of an opening tag: the regex piece `[^>]*>`; returns
the input after the closing angle bracket. -/
def skipTagRest : List Char → Option (List Char)
  | [] => none
  | c :: rest => if c = '>' then some rest else skipTagRest rest

/-- Opening-tag matcher for the simple rules: `<name[^>]*>` (ci). -/
def matchSimpleTag (name : List Char) (s : List Char) : Option (List Char) :=
  (dropCI ('<' :: name) s).bind skipTagRest

/-- Paired-tag matcher `<name[^>]*>[\s\S]*?</name>` (ci): opening tag, then the
lazily-first closing tag. -/
def matchBlock (name : List Char) (s : List Char) : Option (List Char) :=
  (matchSimpleTag name s).bind (findCloseCI ('<' :: '/' :: (name ++ ['>'])))

/-- Inside an opening tag, scan the `[^>]*` region for the attribute marker
`attr="`; fails when the tag ends first. -/
def findAttrInTag (attrEq : List Char) : List Char → Option (List Char)
  | [] => none
  | c :: rest =>
    match dropCI attrEq (c :: rest) with
    | some r => some r
    | none => if c = '>' then none else findAttrInTag attrEq rest

/-- Attribute value: the chars up to the closing double quote, plus the rest. -/
def takeValue : List Char → Option (List Char × List Char)
  | [] => none
  | c :: rest =>
    if c = '"' then some ([], rest)
    else
      match takeValue rest with
      | some (v, r) => some (c :: v, r)
      | none => none

/-- Case-insensitive containment (the `[^"]*token[^"]*` piece of the rules). -/
def containsCI (token : List Char) (s : List Char) : Bool := (findCloseCI token s).isSome

/-- Tag-with-attribute matcher `<name[^>]*attr="[^"]*token[^"]*"[^>]*>` (ci). -/
def matchAttrTag (name attr token : List Char) (s : List Char) : Option (List Char) :=
  (dropCI ('<' :: name) s).bind fun r1 =>
    (findAttrInTag (attr ++ ['=', '"']) r1).bind fun r2 =>
      (takeValue r2).bind fun vr =>
        if containsCI token vr.1 then skipTagRest vr.2 else none

/-- Tag-with-attribute block matcher, removed through the first closing tag. -/
def matchAttrBlock (name attr token : List Char) (s : List Char) : Option (List Char) :=
  (matchAttrTag name attr token s).bind (findCloseCI ('<' :: '/' :: (name ++ ['>'])))

/-- One global replace-with-empty pass: at each position try the matcher; on a
match drop the matched segment and continue after it, otherwise keep the char.
Fuel is the input length, which suffices because a match always consumes at
least one character. -/
def removeAllF (f : List Char → Option (List Char)) : Nat → List Char → List Char
  | _, [] => []
  | 0, s => s
  | n + 1, c :: rest =>
    match f (c :: rest) with
    | some r => removeAllF f n r
    | none => c :: removeAllF f n rest

/-- Global replace-with-empty of one regex rule over the whole input. -/
def removeAll (f : List Char → Option (List Char)) (s : List Char) : List Char :=
  removeAllF f s.length s

/-- Whitespace-run collapse (regex `\s+` to a single space); the flag records
whether the scanner is inside a run. -/
def collapseWsAux : Bool → List Char → List Char
  | _, [] => []
  | inRun, c :: rest =>
    if isWs c then
      if inRun then collapseWsAux true rest else ' ' :: collapseWsAux true rest
    else c :: collapseWsAux false rest

/-- The `\s+` to single-space replace of the cleaner. -/
def collapseWs (s : List Char) : List Char := collapseWsAux false s

/-- Index of the last newline in a whitespace run (the backtracking of the
greedy `\s*` before the final newline of the blank-line regex). -/
def lastNlIdx (l : List Char) : Option Nat :=
  match l.reverse.findIdx? (fun c => c = '\n') with
  | some i => some (l.length - 1 - i)
  | none => none

/-- Fuel-indexed blank-line collapse (regex `\n\s*\n` to a single newline). -/
def replaceBlankF : Nat → List Char → List Char
  | _, [] => []
  | 0, s => s
  | n + 1, c :: rest =>
    if c = '\n' then
      match lastNlIdx (rest.takeWhile isWs) with
      | some k => '\n' :: replaceBlankF n (rest.drop (k + 1))
      | none => c :: replaceBlankF n rest
    else c :: replaceBlankF n rest

/-- The `\n\s*\n` to newline replace of the cleaner. -/
def replaceBlank (s : List Char) : List Char := replaceBlankF s.length s

/-- Trailing-whitespace removal, the tail half of JS `trim`. -/
def dropTrailing (p : Char → Bool) (l : List Char) : List Char :=
  (l.reverse.dropWhile p).reverse

/-- JS `String.prototype.trim`: strip leading and trailing whitespace. -/
def trimChars (l : List Char) : List Char := dropTrailing isWs (l.dropWhile isWs)

/-- Model of `cleanHtmlContent` (src/utils/markdown.ts lines 27-59): the twelve
global regex replaces in source order, then the whitespace collapse, the
blank-line collapse, and the final trim.  The null / non-string early return of
line 28 is the empty-input branch here. -/
def cleanHtmlContent (s : List Char) : List Char :=
  if s = [] then s
  else
    let h1 := removeAll (matchBlock (cs "script")) s
    let h2 := removeAll (matchBlock (cs "style")) h1
    let h3 := removeAll (matchBlock (cs "nav")) h2
    let h4 := removeAll (matchBlock (cs "header")) h3
    let h5 := removeAll (matchBlock (cs "footer")) h4
    let h6 := removeAll (matchAttrBlock (cs "div") (cs "class") (cs "ad") ) h5
    let h7 := removeAll (matchAttrBlock (cs "div") (cs "id") (cs "ad")) h6
    let h8 := removeAll (matchBlock (cs "aside")) h7
    let h9 := removeAll (matchAttrBlock (cs "div") (cs "class") (cs "share")) h8
    let h10 := removeAll (matchAttrBlock (cs "div") (cs "class") (cs "social")) h9
    let h11 := removeAll (matchAttrTag (cs "img") (cs "alt") (cs "logo")) h10
    let h12 := removeAll (matchAttrTag (cs "img") (cs "class") (cs "icon")) h11
    trimChars (replaceBlank (collapseWs h12))

/-- Marker-stripping step of the summary (line 136): regex `[#*\x60]` to empty.
`Char.ofNat 96` is the code-span marker char. -/
def stripMd (s : List Char) : List Char :=
  s.filter (fun c => !(c = '#' || c = '*' || c = Char.ofNat 96))

/-- Newline-run collapse of the summary (line 137): regex `\n+` to a single
space; the flag records whether the scanner is inside a run. -/
def collapseNlAux : Bool → List Char → List Char
  | _, [] => []
  | inRun, c :: rest =>
    if c = '\n' then
      if inRun then collapseNlAux true rest else ' ' :: collapseNlAux true rest
    else c :: collapseNlAux false rest

/-- The `\n+` to single-space replace. -/
def collapseNl (s : List Char) : List Char := collapseNlAux false s

/-- The stripped-and-collapsed text of the summary computation (lines 136-138
and its recomputation on line 143): strip markers, collapse newlines, trim. -/
def strippedOf (cleanText : List Char) : List Char :=
  trimChars (collapseNl (stripMd cleanText))

/-- Model of the summary extraction (src/utils/markdown.ts lines 134-145): the
source inlines this inside the aggregator loop with the limit fixed at 200; the
limit is a parameter here and the aggregator instantiates it with 200.
`summary` is the truncated-and-retrimmed slice; the ellipsis is appended
exactly when the truncated summary is shorter than the full stripped text. -/
def summarize (cleanText : List Char) (limit : Nat) : List Char :=
  let summary := trimChars ((strippedOf cleanText).take limit)
  if summary.length < (strippedOf cleanText).length then summary ++ cs "..." else summary

/-- One backend record of the Workers-AI toMarkdown response. -/
structure Conversion where
  format : List Char
  data : List Char

/-- Outcome of one call to the conversion backend: a thrown error, a nullish
result, or a list of conversion records. -/
inductive AIResult where
  | threw
  | null
  | ok (rs : List Conversion)

/-- The conversion backend: from the processed content to an outcome.  The
document name and the byte-blob wrapping of the source call are elided; the
backend is abstract, so every response shape is covered. -/
def Backend : Type := List Char → AIResult

/-- The default mime hint of the pipeline. -/
def htmlMime : List Char := cs "text/html"

/-- The content handed to the backend (lines 82-86): cleaned first when the
mime hint is HTML, otherwise the raw content. -/
def processedOf (content : List Char) (mimeType : List Char) : List Char :=
  if mimeType = htmlMime then cleanHtmlContent content else content

/-- Model of `convertToMarkdown` (src/utils/markdown.ts lines 68-109).  Empty
or whitespace-only content is returned unchanged; without an AI binding the
raw content is returned (line 77-79, before any cleaning); otherwise the
cleaned (if HTML) content is sent to the backend and the converted data is
used only when the first record has format "markdown" and non-empty data;
every other shape, a nullish result, and a thrown error all fall back to the
raw content. -/
def convertToMarkdown (content : List Char) (ai : Option Backend) (mimeType : List Char) : List Char :=
  if trimChars content = [] then content
  else
    match ai with
    | none => content
    | some backend =>
      match backend (processedOf content mimeType) with
      | .threw => content
      | .null => content
      | .ok [] => content
      | .ok (conv :: _) =>
        if conv.format = cs "markdown" ∧ conv.data ≠ [] then conv.data else content

/-- One upstream search result (the ExaSearchResult interface, lines 9-20);
`summary`, `image`, `favicon` and `score` are never read by the pipeline and
are omitted.  `text` is an Option because the upstream field may be null, the
case the error-isolation claims are about. -/
structure ExaSearchResult where
  id : List Char
  title : List Char
  url : List Char
  publishedDate : List Char
  author : List Char
  text : Option (List Char)
deriving DecidableEq

/-- Header line of the aggregated document (line 127). -/
def headerOf (query : List Char) : List Char :=
  cs "## 🔍 Search Results for \"" ++ query ++ cs "\"\n\n"

/-- Empty-input message of the aggregator (line 124). -/
def noResultsFor (query : List Char) : List Char :=
  cs "No search results found for \"" ++ query ++ cs "\"."

/-- Overflow footer (line 166). -/
def moreNote (n : Nat) : List Char :=
  cs "*And " ++ (Nat.repr n).data ++ cs " more results...*\n\n"

/-- One rendered item section (lines 147-155): title-as-link line, optional
author line, optional date line (via the locale date formatter `dateFmt`,
abstract here), then the summary of the converted text. -/
def sectionOf (r : ExaSearchResult) (t : List Char) (ai : Option Backend)
    (dateFmt : List Char → List Char) : List Char :=
  cs "### [" ++ r.title ++ cs "](" ++ r.url ++ cs ")\n"
  ++ (if r.author ≠ [] then cs "**Author:** " ++ r.author ++ cs "  \n" else [])
  ++ (if r.publishedDate ≠ [] then cs "**Published:** " ++ dateFmt r.publishedDate ++ cs "  \n" else [])
  ++ summarize (convertToMarkdown t ai htmlMime) 200 ++ cs "\n\n"

/-- The try-block of the per-item loop (lines 130-156).  A null `text` flows
through `convertToMarkdown` unchanged (its falsy-content early return), and
the `.replace` call on it then throws a TypeError: the error case.  For string
`text` every operation in the block is total, so the section is produced. -/
def renderResultTry (r : ExaSearchResult) (ai : Option Backend)
    (dateFmt : List Char → List Char) : Except Unit (List Char) :=
  match r.text with
  | none => .error ()
  | some t => .ok (sectionOf r t ai dateFmt)

/-- The catch-block fallback (lines 157-162): it reads `result.text` again, so
on a null `text` the `.substring` call throws inside the catch block and the
error escapes; otherwise the minimal title-plus-truncated-text rendering. -/
def renderResultFallback (r : ExaSearchResult) : Except Unit (List Char) :=
  match r.text with
  | none => .error ()
  | some t =>
    .ok (cs "### [" ++ r.title ++ cs "](" ++ r.url ++ cs ")\n" ++ t.take 200 ++ cs "...\n\n")

/-- One iteration of the per-item loop: the try block, recovered by the
fallback on error. -/
def renderResult (r : ExaSearchResult) (ai : Option Backend)
    (dateFmt : List Char → List Char) : Except Unit (List Char) :=
  match renderResultTry r ai dateFmt with
  | .ok s => .ok s
  | .error _ => renderResultFallback r

/-- The for-loop of the aggregator, appending each rendered section to the
accumulated document; an escaping per-item error aborts the whole call. -/
def renderLoop (ai : Option Backend) (dateFmt : List Char → List Char) :
    List ExaSearchResult → List Char → Except Unit (List Char)
  | [], acc => .ok acc
  | r :: rs, acc =>
    match renderResult r ai dateFmt with
    | .ok s => renderLoop ai dateFmt rs (acc ++ s)
    | .error e => .error e

/-- Model of `formatSearchResultsToMarkdown` (src/utils/markdown.ts lines
118-170): the no-results message on a null or empty list, otherwise the header,
the first ten items in order, and the overflow footer when more than ten items
came in. -/
def formatSearchResultsToMarkdown (results : Option (List ExaSearchResult))
    (query : List Char) (ai : Option Backend) (dateFmt : List Char → List Char) :
    Except Unit (List Char) :=
  match results with
  | none => .ok (noResultsFor query)
  | some rs =>
    if rs.length = 0 then .ok (noResultsFor query)
    else
      match renderLoop ai dateFmt (rs.take 10) (headerOf query) with
      | .error e => .error e
      | .ok body => .ok (body ++ (if rs.length > 10 then moreNote (rs.length - 10) else []))

/-- Fixed message of the web_search_exa handler on an empty upstream response
(src/tools/webSearch.ts line 80). -/
def noResultsFixedMsg : List Char := cs "No search results found. Please try a different query."

/-- The `response.data` shape the handler inspects: a possibly-missing results
list. -/
structure ExaResponseData where
  results : Option (List ExaSearchResult)

/-- One tool response: the text content and the error flag (absent flag is
`false`). -/
structure ToolOutput where
  text : List Char
  isError : Bool

/-- Model of the response handling of the web_search_exa handler
(src/tools/webSearch.ts lines 74-99): missing data, missing results, or an
empty results list yield the fixed non-error message; otherwise the aggregator
output is returned without the error flag.  An error escaping the aggregator
propagates (to the generic catch of the handler, outside this scope). -/
def webSearchRespond (data : Option ExaResponseData) (query : List Char)
    (ai : Option Backend) (dateFmt : List Char → List Char) : Except Unit ToolOutput :=
  match data with
  | none => .ok ⟨noResultsFixedMsg, false⟩
  | some d =>
    match d.results with
    | none => .ok ⟨noResultsFixedMsg, false⟩
    | some [] => .ok ⟨noResultsFixedMsg, false⟩
    | some (r :: rs) =>
      (formatSearchResultsToMarkdown (some (r :: rs)) query ai dateFmt).map
        (fun md => ⟨md, false⟩)

/-- JS `String.prototype.split` on a comma. -/
def splitOnComma : List Char → List (List Char)
  | [] => [[]]
  | c :: rest =>
    if c = ',' then [] :: splitOnComma rest
    else
      match splitOnComma rest with
      | [] => [[c]]
      | g :: gs => (c :: g) :: gs

/-- Parsing of the ENABLED_TOOLS string (src/worker.ts lines 69-81): a missing
or falsy (empty) string yields no explicit list; otherwise split on commas,
trim every entry, and drop the empty ones.  (The array branch of the source is
dead for the worker environment, whose ENABLED_TOOLS is a string.) -/
def parseEnabledTools (toolsParam : Option (List Char)) : Option (List (List Char)) :=
  match toolsParam with
  | none => none
  | some s =>
    if s = [] then none
    else some (((splitOnComma s).map trimChars).filter (fun e => !e.isEmpty))

/-- The static tool catalog (src/worker.ts lines 17-26): id and the
enabledByDefault flag; display names and descriptions are never consulted by
the resolver and are omitted. -/
def availableTools : List (List Char × Bool) :=
  [(cs "web_search_exa", true),
   (cs "get_code_context_exa", true),
   (cs "deep_search_exa", false),
   (cs "crawling_exa", false),
   (cs "deep_researcher_start", false),
   (cs "deep_researcher_check", false),
   (cs "linkedin_search_exa", false),
   (cs "company_research_exa", false)]

/-- The `availableTools[toolId]?.enabled ?? false` lookup (line 101). -/
def lookupEnabled (catalog : List (List Char × Bool)) (toolId : List Char) : Bool :=
  (catalog.lookup toolId).getD false

/-- Model of `shouldRegisterTool` (src/worker.ts lines 97-102), with the
catalog the source closes over passed explicitly: a present non-empty explicit
list decides by membership, anything else falls back to the catalog default. -/
def shouldRegisterTool (catalog : List (List Char × Bool))
    (enabledTools : Option (List (List Char))) (toolId : List Char) : Bool :=
  match enabledTools with
  | some l => if l.length > 0 then l.contains toolId else lookupEnabled catalog toolId
  | none => lookupEnabled catalog toolId

/-- Section of an item under the assumption that its text is present; used to
state what the loop produces item by item. -/
def secOf (r : ExaSearchResult) (ai : Option Backend) (dateFmt : List Char → List Char) : List Char :=
  match r.text with
  | none => []
  | some t => sectionOf r t ai dateFmt

/-- A result whose `text` field is null: the failing input of the isolation
claim. -/
def itemNullText : ExaSearchResult :=
  ⟨cs "1", cs "A", cs "http://a", [], [], none⟩

/-- An ordinary well-typed result. -/
def itemPlain : ExaSearchResult :=
  ⟨cs "2", cs "B", cs "http://b", [], [], some (cs "hello world")⟩

/-- Fifteen ordinary results, the display-cap scenario of the aggregation
claim. -/
def items15 : List ExaSearchResult := List.replicate 15 itemPlain

/- ------------------------------------------------------------------ -/
/- Helper lemmas. -/
/- ------------------------------------------------------------------ -/

theorem charCI_lt {c : Char} (h : charCI '<' c = true) : c = '<' := by
  have h1 : lowerN (Char.toNat '<') = lowerN c.toNat := eq_of_beq h
  have h2 : lowerN c.toNat = 60 := by
    rw [← h1]; decide
  have h3 : c.toNat = 60 := by
    unfold lowerN at h2
    split at h2
    · omega
    · exact h2
  exact Char.eq_of_val_eq (UInt32.eq_of_toBitVec_eq (BitVec.eq_of_toNat_eq h3))

theorem charCI_lt_false {c : Char} (hc : c ≠ '<') : charCI '<' c = false := by
  cases hcc : charCI '<' c
  · rfl
  · exact absurd (charCI_lt hcc) hc

theorem dropCI_lt_none {name : List Char} {c : Char} {t : List Char} (hc : c ≠ '<') :
    dropCI ('<' :: name) (c :: t) = none := by
  simp [dropCI, charCI_lt_false hc]

theorem matchSimpleTag_ne_lt (name : List Char) {c : Char} {t : List Char} (hc : c ≠ '<') :
    matchSimpleTag name (c :: t) = none := by
  simp [matchSimpleTag, dropCI_lt_none hc]

theorem matchBlock_ne_lt (name : List Char) {c : Char} {t : List Char} (hc : c ≠ '<') :
    matchBlock name (c :: t) = none := by
  simp [matchBlock, matchSimpleTag_ne_lt name hc]

theorem matchAttrTag_ne_lt (name attr token : List Char) {c : Char} {t : List Char}
    (hc : c ≠ '<') : matchAttrTag name attr token (c :: t) = none := by
  simp [matchAttrTag, dropCI_lt_none hc]

theorem matchAttrBlock_ne_lt (name attr token : List Char) {c : Char} {t : List Char}
    (hc : c ≠ '<') : matchAttrBlock name attr token (c :: t) = none := by
  simp [matchAttrBlock, matchAttrTag_ne_lt name attr token hc]

theorem removeAllF_no_lt {f : List Char → Option (List Char)}
    (hf : ∀ c t, c ≠ '<' → f (c :: t) = none) :
    ∀ n s, s.length ≤ n → (∀ c ∈ s, c ≠ '<') → removeAllF f n s = s := by
  intro n
  induction n with
  | zero =>
    intro s hlen _
    have : s = [] := List.eq_nil_of_length_eq_zero (Nat.le_zero.mp hlen)
    subst this; rfl
  | succ n ih =>
    intro s hlen hmem
    cases s with
    | nil => rfl
    | cons c rest =>
      have hc : c ≠ '<' := hmem c (by simp)
      simp only [removeAllF, hf c rest hc]
      have := ih rest (by simpa using Nat.lt_succ_iff.mp (Nat.lt_of_lt_of_le (by simp) hlen))
        (fun x hx => hmem x (by simp [hx]))
      rw [this]

theorem removeAll_no_lt {f : List Char → Option (List Char)}
    (hf : ∀ c t, c ≠ '<' → f (c :: t) = none) (s : List Char)
    (hmem : ∀ c ∈ s, c ≠ '<') : removeAll f s = s :=
  removeAllF_no_lt hf s.length s le_rfl hmem

theorem collapseWsAux_mem {c : Char} :
    ∀ {b : Bool} {s : List Char}, c ∈ collapseWsAux b s → c = ' ' ∨ isWs c = false := by
  intro b s
  induction s generalizing b with
  | nil => intro h; simp [collapseWsAux] at h
  | cons x t ih =>
    intro h
    by_cases hx : isWs x
    · simp only [collapseWsAux, hx, if_true] at h
      cases b with
      | true => exact ih h
      | false =>
        rcases List.mem_cons.mp h with h1 | h1
        · exact Or.inl h1
        · exact ih h1
    · simp only [collapseWsAux, hx, if_false, Bool.false_eq_true] at h
      rcases List.mem_cons.mp h with h1 | h1
      · subst h1; exact Or.inr (by simpa using hx)
      · exact ih h1

theorem collapseWs_no_nl (s : List Char) : '\n' ∉ collapseWs s := by
  intro hmem
  rcases collapseWsAux_mem hmem with h | h
  · exact absurd h (by decide)
  · exact absurd h (by decide)

theorem replaceBlankF_no_nl :
    ∀ (n : Nat) (s : List Char), (∀ c ∈ s, c ≠ '\n') → replaceBlankF n s = s := by
  intro n
  induction n with
  | zero => intro s _; cases s <;> rfl
  | succ n ih =>
    intro s hmem
    cases s with
    | nil => rfl
    | cons c rest =>
      have hc : c ≠ '\n' := hmem c (by simp)
      simp only [replaceBlankF, hc, if_false]
      rw [ih rest (fun x hx => hmem x (by simp [hx]))]

theorem replaceBlank_no_nl (s : List Char) (h : ∀ c ∈ s, c ≠ '\n') : replaceBlank s = s :=
  replaceBlankF_no_nl s.length s h

theorem replaceBlank_collapseWs (s : List Char) : replaceBlank (collapseWs s) = collapseWs s :=
  replaceBlank_no_nl _ (fun _ hc he => collapseWs_no_nl s (he ▸ hc))

theorem trimChars_mem {c : Char} {l : List Char} (h : c ∈ trimChars l) : c ∈ l := by
  unfold trimChars dropTrailing at h
  have h1 := List.mem_reverse.mp h
  have h2 := (List.dropWhile_sublist isWs).subset h1
  have h3 := List.mem_reverse.mp h2
  exact (List.dropWhile_sublist isWs).subset h3

theorem cleanPipe_no_nl (t : List Char) : '\n' ∉ trimChars (replaceBlank (collapseWs t)) := by
  rw [replaceBlank_collapseWs]
  intro hmem
  exact collapseWs_no_nl t (trimChars_mem hmem)

theorem cleanHtmlContent_no_lt (s : List Char) (h : ∀ c ∈ s, c ≠ '<') :
    cleanHtmlContent s = trimChars (replaceBlank (collapseWs s)) := by
  by_cases hs : s = []
  · subst hs; rfl
  · unfold cleanHtmlContent
    rw [if_neg hs]
    simp only []
    rw [removeAll_no_lt (fun c t hc => matchBlock_ne_lt (cs "script") hc) s h,
      removeAll_no_lt (fun c t hc => matchBlock_ne_lt (cs "style") hc) s h,
      removeAll_no_lt (fun c t hc => matchBlock_ne_lt (cs "nav") hc) s h,
      removeAll_no_lt (fun c t hc => matchBlock_ne_lt (cs "header") hc) s h,
      removeAll_no_lt (fun c t hc => matchBlock_ne_lt (cs "footer") hc) s h,
      removeAll_no_lt (fun c t hc => matchAttrBlock_ne_lt (cs "div") (cs "class") (cs "ad") hc) s h,
      removeAll_no_lt (fun c t hc => matchAttrBlock_ne_lt (cs "div") (cs "id") (cs "ad") hc) s h,
      removeAll_no_lt (fun c t hc => matchBlock_ne_lt (cs "aside") hc) s h,
      removeAll_no_lt (fun c t hc => matchAttrBlock_ne_lt (cs "div") (cs "class") (cs "share") hc) s h,
      removeAll_no_lt (fun c t hc => matchAttrBlock_ne_lt (cs "div") (cs "class") (cs "social") hc) s h,
      removeAll_no_lt (fun c t hc => matchAttrTag_ne_lt (cs "img") (cs "alt") (cs "logo") hc) s h,
      removeAll_no_lt (fun c t hc => matchAttrTag_ne_lt (cs "img") (cs "class") (cs "icon") hc) s h]

theorem cleanHtmlContent_no_nl (s : List Char) : '\n' ∉ cleanHtmlContent s := by
  by_cases hs : s = []
  · subst hs; intro h; simp [cleanHtmlContent] at h
  · unfold cleanHtmlContent
    rw [if_neg hs]
    simp only []
    exact cleanPipe_no_nl _

theorem dropWhile_append (p : Char → Bool) (xs ys : List Char) :
    (xs ++ ys).dropWhile p
      = if xs.dropWhile p = [] then ys.dropWhile p else xs.dropWhile p ++ ys := by
  induction xs with
  | nil => simp
  | cons x t ih =>
    by_cases hx : p x
    · simpa [List.dropWhile_cons, hx] using ih
    · simp [List.dropWhile_cons, hx]

theorem dropTrailing_cons (p : Char → Bool) (c : Char) (t : List Char) :
    dropTrailing p (c :: t)
      = if dropTrailing p t = [] then (if p c then [] else [c])
        else c :: dropTrailing p t := by
  unfold dropTrailing
  rw [List.reverse_cons, dropWhile_append]
  by_cases hd : t.reverse.dropWhile p = []
  · rw [if_pos hd, if_pos (by rw [hd]; rfl)]
    by_cases hc : p c
    · simp [List.dropWhile_cons, hc]
    · simp [List.dropWhile_cons, hc]
  · rw [if_neg hd, if_neg (by simpa using hd)]
    simp

theorem dropTrailing_idem (p : Char → Bool) :
    ∀ l : List Char, dropTrailing p (dropTrailing p l) = dropTrailing p l := by
  intro l
  induction l with
  | nil => rfl
  | cons c t ih =>
    rw [dropTrailing_cons]
    by_cases h : dropTrailing p t = []
    · rw [if_pos h]
      by_cases hc : p c
      · rw [if_pos hc]; rfl
      · rw [if_neg hc, dropTrailing_cons]
        rw [show dropTrailing p ([] : List Char) = [] from rfl, if_pos rfl, if_neg hc]
    · rw [if_neg h, dropTrailing_cons, ih, if_neg h]

theorem dropWhile_eq_cons {p : Char → Bool} :
    ∀ {l : List Char} {c : Char} {t : List Char}, l.dropWhile p = c :: t → p c = false := by
  intro l
  induction l with
  | nil => intro c t h; simp at h
  | cons x xs ih =>
    intro c t h
    by_cases hx : p x
    · rw [List.dropWhile_cons, if_pos hx] at h
      exact ih h
    · rw [List.dropWhile_cons, if_neg hx] at h
      cases h
      simpa using hx

theorem dropWhile_dropTrailing (p : Char → Bool) (l : List Char) :
    (dropTrailing p (l.dropWhile p)).dropWhile p = dropTrailing p (l.dropWhile p) := by
  cases hu : l.dropWhile p with
  | nil => rfl
  | cons c t =>
    have hc : p c = false := dropWhile_eq_cons hu
    rw [dropTrailing_cons]
    by_cases h : dropTrailing p t = []
    · rw [if_pos h]
      by_cases hpc : p c
      · rw [hc] at hpc; cases hpc
      · simp [List.dropWhile_cons, hc]
    · rw [if_neg h]
      simp [List.dropWhile_cons, hc]

theorem trimChars_idem (l : List Char) : trimChars (trimChars l) = trimChars l := by
  unfold trimChars
  rw [dropWhile_dropTrailing, dropTrailing_idem]

theorem trimChars_length (l : List Char) : (trimChars l).length ≤ l.length := by
  unfold trimChars dropTrailing
  calc ((l.dropWhile isWs).reverse.dropWhile isWs).reverse.length
      = ((l.dropWhile isWs).reverse.dropWhile isWs).length := List.length_reverse _
    _ ≤ (l.dropWhile isWs).reverse.length := (List.dropWhile_sublist isWs).length_le
    _ = (l.dropWhile isWs).length := List.length_reverse _
    _ ≤ l.length := (List.dropWhile_sublist isWs).length_le

theorem strippedOf_trimmed (s : List Char) : trimChars (strippedOf s) = strippedOf s := by
  unfold strippedOf
  exact trimChars_idem _

/- Lemmas about the per-item loop of the aggregator. -/

theorem renderResult_ok {r : ExaSearchResult} {t : List Char} (ai : Option Backend)
    (dateFmt : List Char → List Char) (h : r.text = some t) :
    renderResult r ai dateFmt = .ok (sectionOf r t ai dateFmt) := by
  simp [renderResult, renderResultTry, h]

theorem renderResult_err {r : ExaSearchResult} (ai : Option Backend)
    (dateFmt : List Char → List Char) (h : r.text = none) :
    renderResult r ai dateFmt = .error () := by
  simp [renderResult, renderResultTry, renderResultFallback, h]

theorem renderLoop_all_ok (ai : Option Backend) (dateFmt : List Char → List Char) :
    ∀ (rs : List ExaSearchResult) (acc : List Char), (∀ r ∈ rs, r.text ≠ none) →
      renderLoop ai dateFmt rs acc
        = .ok (acc ++ (rs.map (fun r => secOf r ai dateFmt)).flatten) := by
  intro rs
  induction rs with
  | nil => intro acc _; simp [renderLoop]
  | cons r rest ih =>
    intro acc hok
    have hr : r.text ≠ none := hok r (by simp)
    cases ht : r.text with
    | none => exact absurd ht hr
    | some t =>
      simp only [renderLoop, renderResult_ok ai dateFmt ht]
      rw [ih (acc ++ sectionOf r t ai dateFmt) (fun x hx => hok x (by simp [hx]))]
      simp [secOf, ht]

theorem renderLoop_extends (ai : Option Backend) (dateFmt : List Char → List Char) :
    ∀ (rs : List ExaSearchResult) (acc out : List Char),
      renderLoop ai dateFmt rs acc = .ok out → ∃ tail, out = acc ++ tail := by
  intro rs
  induction rs with
  | nil =>
    intro acc out h
    refine ⟨[], ?_⟩
    cases h
    simp
  | cons r rest ih =>
    intro acc out h
    rw [renderLoop] at h
    cases hr : renderResult r ai dateFmt with
    | error e => rw [hr] at h; cases h
    | ok s =>
      rw [hr] at h
      obtain ⟨tail, htail⟩ := ih (acc ++ s) out h
      exact ⟨s ++ tail, by simpa [List.append_assoc] using htail⟩

theorem convertToMarkdown_none_helper (content mimeType : List Char) :
    convertToMarkdown content none mimeType = content := by
  unfold convertToMarkdown
  split
  · rfl
  · rfl

theorem convertToMarkdown_some_eq (content : List Char) (b : Backend) (mimeType : List Char)
    (h0 : ¬trimChars content = []) :
    convertToMarkdown content (some b) mimeType
      = match b (processedOf content mimeType) with
        | AIResult.threw => content
        | AIResult.null => content
        | AIResult.ok [] => content
        | AIResult.ok (conv :: _) =>
          if conv.format = cs "markdown" ∧ conv.data ≠ [] then conv.data else content := by
  unfold convertToMarkdown
  rw [if_neg h0]

/- ------------------------------------------------------------------ -/
/- Claim theorems. -/
/- ------------------------------------------------------------------ -/

/-- Claim C3: for every markdown string and every limit (the source inlines the
limit as 200), the summary extractor strips heading/emphasis/code markers,
collapses newlines to spaces, trims and truncates: the result length is at most
limit + 3 (the 3 being the appended ellipsis); a stripped-and-collapsed text no
longer than the limit — including length exactly equal to the limit — is
returned verbatim with no ellipsis; and the ellipsis is appended exactly when
the truncated summary is shorter than the full stripped text, the ellipsis
itself never counted in that comparison. -/
theorem summarize_spec (s : List Char) (limit : Nat) :
    (summarize s limit).length ≤ limit + 3
    ∧ ((strippedOf s).length ≤ limit → summarize s limit = strippedOf s)
    ∧ (summarize s limit = trimChars ((strippedOf s).take limit) ++ cs "..."
        ↔ (trimChars ((strippedOf s).take limit)).length < (strippedOf s).length) := by
  have hsum : (trimChars ((strippedOf s).take limit)).length ≤ limit := by
    calc (trimChars ((strippedOf s).take limit)).length
        ≤ ((strippedOf s).take limit).length := trimChars_length _
      _ ≤ limit := by rw [List.length_take]; exact min_le_left _ _
  have hell : (cs "...").length = 3 := by decide
  refine ⟨?_, ?_, ?_⟩
  · simp only [summarize]
    by_cases h : (trimChars ((strippedOf s).take limit)).length < (strippedOf s).length
    · rw [if_pos h, List.length_append]
      omega
    · rw [if_neg h]
      omega
  · intro hle
    simp only [summarize]
    rw [List.take_of_length_le hle, strippedOf_trimmed]
    rw [if_neg (lt_irrefl _)]
  · constructor
    · intro heq
      by_cases h : (trimChars ((strippedOf s).take limit)).length < (strippedOf s).length
      · exact h
      · exfalso
        simp only [summarize] at heq
        rw [if_neg h] at heq
        have hlen := congrArg List.length heq
        rw [List.length_append] at hlen
        omega
    · intro h
      simp only [summarize]
      rw [if_pos h]

/-- Witness for claim C3: a concrete short markdown input is returned stripped
and verbatim, with no ellipsis. -/
theorem summarize_spec_witness :
    summarize (cs "# Hi\nthere") 200 = strippedOf (cs "# Hi\nthere") :=
  (summarize_spec (cs "# Hi\nthere") 200).2.1 (by decide)

/-- Claim C2: on any non-empty list of well-typed items (text present, as the
upstream interface declares) the aggregator emits the query-naming header, then
exactly the first ten items in the order given — each rendered as title-as-link
line, optional author line, optional date line, and the summary of the
converted text — and the omitted-count footer exactly when more than ten items
came in; the rendered-item count is `min 10 n` and never exceeds ten, and with
fifteen items the footer states five more results. -/
theorem formatSearchResults_first_ten (results : List ExaSearchResult) (query : List Char)
    (ai : Option Backend) (dateFmt : List Char → List Char)
    (hne : results ≠ []) (htext : ∀ r ∈ results.take 10, r.text ≠ none) :
    formatSearchResultsToMarkdown (some results) query ai dateFmt
      = .ok (headerOf query
          ++ ((results.take 10).map (fun r => secOf r ai dateFmt)).flatten
          ++ (if results.length > 10 then moreNote (results.length - 10) else []))
    ∧ (results.take 10).length = min 10 results.length
    ∧ (results.take 10).length ≤ 10
    ∧ (results.length = 15 →
        (if results.length > 10 then moreNote (results.length - 10) else []) = moreNote 5) := by
  refine ⟨?_, List.length_take 10 results,
    by rw [List.length_take]; exact min_le_left _ _, ?_⟩
  · simp only [formatSearchResultsToMarkdown]
    rw [if_neg (fun h0 => hne (List.length_eq_zero.mp h0))]
    rw [renderLoop_all_ok ai dateFmt (results.take 10) (headerOf query) htext]
  · intro h15
    rw [h15]
    rw [if_pos (by norm_num)]

/-- Witness for claim C2: fifteen concrete items render as the header, ten
sections, and the five-more footer. -/
theorem formatSearchResults_first_ten_witness :
    formatSearchResultsToMarkdown (some items15) (cs "q") none (fun d => d)
      = .ok (headerOf (cs "q")
          ++ ((items15.take 10).map (fun r => secOf r none (fun d => d))).flatten
          ++ moreNote 5) := by
  have h := formatSearchResults_first_ten items15 (cs "q") none (fun d => d)
    (by decide) (by decide)
  rw [h.1, h.2.2.2 (by decide)]

/-- Claim C7: on a missing or empty item list the aggregator returns, for every
query, the single no-results message; that message embeds the literal query
between the two fixed fragments, and it holds no section marker and no newline
beyond those of the query itself. -/
theorem formatSearchResults_empty_message (query : List Char) (ai : Option Backend)
    (dateFmt : List Char → List Char) :
    formatSearchResultsToMarkdown none query ai dateFmt = .ok (noResultsFor query)
    ∧ formatSearchResultsToMarkdown (some []) query ai dateFmt = .ok (noResultsFor query)
    ∧ noResultsFor query = cs "No search results found for \"" ++ query ++ cs "\"."
    ∧ ('#' ∉ query → '#' ∉ noResultsFor query)
    ∧ ('\n' ∉ query → '\n' ∉ noResultsFor query) := by
  refine ⟨rfl, rfl, rfl, ?_, ?_⟩
  · intro hq hmem
    unfold noResultsFor at hmem
    rcases List.mem_append.mp hmem with h1 | h1
    · rcases List.mem_append.mp h1 with h2 | h2
      · exact absurd h2 (by decide)
      · exact hq h2
    · exact absurd h1 (by decide)
  · intro hq hmem
    unfold noResultsFor at hmem
    rcases List.mem_append.mp hmem with h1 | h1
    · rcases List.mem_append.mp h1 with h2 | h2
      · exact absurd h2 (by decide)
      · exact hq h2
    · exact absurd h1 (by decide)

/-- Witness for claim C7 at the query "foo". -/
theorem formatSearchResults_empty_message_witness :
    formatSearchResultsToMarkdown (some []) (cs "foo") none (fun d => d)
      = .ok (noResultsFor (cs "foo"))
    ∧ '#' ∉ noResultsFor (cs "foo") := by
  have h := formatSearchResults_empty_message (cs "foo") none (fun d => d)
  exact ⟨h.2.1, h.2.2.2.1 (by decide)⟩

/-- Claim C1 (refuted — the code contradicts the intended per-item isolation):
with a first item whose `text` is null, the catch-block fallback dereferences
`result.text` again, the TypeError escapes the aggregator, and the following
well-formed item is never rendered; on its own that second item renders fine. -/
theorem formatSearchResults_null_text_aborts :
    formatSearchResultsToMarkdown (some [itemNullText, itemPlain]) (cs "q") none (fun d => d)
      = .error ()
    ∧ (∃ md, formatSearchResultsToMarkdown (some [itemPlain]) (cs "q") none (fun d => d)
          = .ok md ∧ md ≠ noResultsFor (cs "q")) := by
  exact ⟨rfl, _, rfl, by decide⟩

/-- Claim C4 counterexample: with no backend configured the normalizer returns
the raw input, not the cleaned input — the availability check precedes the
cleaning.  The input is non-empty, non-whitespace, with the HTML mime hint,
and its cleaned form differs from it. -/
theorem convertToMarkdown_unavailable_cex :
    convertToMarkdown (cs "<script>x</script>hello") none htmlMime
        ≠ cleanHtmlContent (cs "<script>x</script>hello")
    ∧ convertToMarkdown (cs "<script>x</script>hello") none htmlMime
        = cs "<script>x</script>hello"
    ∧ trimChars (cs "<script>x</script>hello") ≠ [] :=
  ⟨by decide, rfl, by decide⟩

/-- Claim C4 (amended): when no conversion backend is configured the normalizer
returns the raw input unchanged for every input and mime hint; the Structure
Cleaner runs only inside the configured-backend path, after the availability
check. -/
theorem convertToMarkdown_unavailable_returns_raw (content mimeType : List Char) :
    convertToMarkdown content none mimeType = content := by
  unfold convertToMarkdown
  split
  · rfl
  · rfl

/-- Claim C5: the conversion gateway result is used only when the backend
returned a non-empty record list whose first record has format tag "markdown"
and non-empty data; in every other situation — backend thrown error, nullish
or empty response, wrong format tag, empty data, no backend, empty input —
the original content is returned, and no exception leaves the normalizer
(the function is total, with the thrown-backend case an explicit outcome). -/
theorem convertToMarkdown_failure_fallback (content : List Char) (ai : Option Backend)
    (mimeType : List Char) :
    convertToMarkdown content ai mimeType = content
    ∨ (∃ b conv rest, ai = some b
        ∧ b (processedOf content mimeType) = AIResult.ok (conv :: rest)
        ∧ conv.format = cs "markdown" ∧ conv.data ≠ []
        ∧ convertToMarkdown content ai mimeType = conv.data) := by
  by_cases h0 : trimChars content = []
  · left
    unfold convertToMarkdown
    rw [if_pos h0]
  · cases ai with
    | none => exact Or.inl (convertToMarkdown_none_helper content mimeType)
    | some b =>
      rw [convertToMarkdown_some_eq content b mimeType h0]
      cases hb : b (processedOf content mimeType) with
      | threw => exact Or.inl rfl
      | null => exact Or.inl rfl
      | ok rs =>
        cases rs with
        | nil => exact Or.inl rfl
        | cons conv rest =>
          by_cases hc : conv.format = cs "markdown" ∧ conv.data ≠ []
          · right
            refine ⟨b, conv, rest, rfl, hb, hc.1, hc.2, ?_⟩
            show (if conv.format = cs "markdown" ∧ conv.data ≠ [] then conv.data else content)
              = conv.data
            rw [if_pos hc]
          · left
            show (if conv.format = cs "markdown" ∧ conv.data ≠ [] then conv.data else content)
              = content
            rw [if_neg hc]

/-- Claim C6: activation resolution is deterministic and total, and its
precedence is: a present explicit list that is non-empty after trimming decides
activation purely by membership, whatever the catalog defaults say and for any
catalog; a missing or empty list falls back to the catalog default-enabled
flag. -/
theorem shouldRegisterTool_precedence (catalog : List (List Char × Bool))
    (toolsParam : Option (List Char)) (toolId : List Char) :
    (∀ l, parseEnabledTools toolsParam = some l → l ≠ [] →
      (shouldRegisterTool catalog (parseEnabledTools toolsParam) toolId = true ↔ toolId ∈ l))
    ∧ ((parseEnabledTools toolsParam = none ∨ parseEnabledTools toolsParam = some []) →
        shouldRegisterTool catalog (parseEnabledTools toolsParam) toolId
          = lookupEnabled catalog toolId)
    ∧ (shouldRegisterTool catalog (parseEnabledTools toolsParam) toolId = true
        ∨ shouldRegisterTool catalog (parseEnabledTools toolsParam) toolId = false) := by
  refine ⟨?_, ?_, ?_⟩
  · intro l hl hne
    rw [hl]
    have hlen : 0 < l.length := List.length_pos.mpr hne
    simp only [shouldRegisterTool]
    rw [if_pos hlen]
    simp [List.elem_iff]
  · intro h
    rcases h with h | h <;> rw [h] <;> simp [shouldRegisterTool]
  · cases h : shouldRegisterTool catalog (parseEnabledTools toolsParam) toolId
    · exact Or.inr rfl
    · exact Or.inl rfl

/-- Witness for claim C6: an explicit two-entry list (with surrounding blanks
trimmed) decides activation by membership against the real catalog. -/
theorem shouldRegisterTool_precedence_witness :
    shouldRegisterTool availableTools
        (parseEnabledTools (some (cs "deep_search_exa, web_search_exa")))
        (cs "deep_search_exa") = true
      ↔ cs "deep_search_exa" ∈ [cs "deep_search_exa", cs "web_search_exa"] :=
  (shouldRegisterTool_precedence availableTools
    (some (cs "deep_search_exa, web_search_exa")) (cs "deep_search_exa")).1
    [cs "deep_search_exa", cs "web_search_exa"] (by decide) (by decide)

/-- Claim C8: the Structure Cleaner is a total function on arbitrary input —
it always yields a string, by construction of the embedding — and on plain
text (no tag-opening character, hence none of the targeted HTML structures)
its output is exactly the whitespace-normalized input: whitespace runs
collapsed to single spaces and the ends trimmed. -/
theorem cleanHtmlContent_plain_roundtrip (s : List Char) (h : ∀ c ∈ s, c ≠ '<') :
    cleanHtmlContent s = trimChars (collapseWs s) := by
  rw [cleanHtmlContent_no_lt s h, replaceBlank_collapseWs]

/-- Witness for claim C8 on a concrete plain text. -/
theorem cleanHtmlContent_plain_roundtrip_witness :
    cleanHtmlContent (cs "plain  article text")
      = trimChars (collapseWs (cs "plain  article text")) :=
  cleanHtmlContent_plain_roundtrip (cs "plain  article text") (by decide)

/-- Claim C9: the whitespace step replaces every run of whitespace — newlines
included — by one space, so its output holds no newline; the subsequent
blank-line replace is then the identity; and the cleaner output never holds a
newline, so no blank-line or paragraph structure survives. -/
theorem cleaner_whitespace_no_newline (s : List Char) :
    '\n' ∉ collapseWs s
    ∧ replaceBlank (collapseWs s) = collapseWs s
    ∧ '\n' ∉ cleanHtmlContent s :=
  ⟨collapseWs_no_nl s, replaceBlank_collapseWs s, cleanHtmlContent_no_nl s⟩

/-- Witness for claim C9 on a concrete input with a blank line. -/
theorem cleaner_whitespace_no_newline_witness :
    '\n' ∉ cleanHtmlContent (cs "a\n\n b") :=
  (cleaner_whitespace_no_newline (cs "a\n\n b")).2.2

theorem fixedMsg_ne_noResultsFor (query : List Char) :
    noResultsFixedMsg ≠ noResultsFor query := by
  intro h
  unfold noResultsFor at h
  have hlt1 : 23 < (cs "No search results found for \"").length := by decide
  have hlt2 : 23 < (cs "No search results found for \"" ++ query).length := by
    rw [List.length_append]; omega
  have h23 : ((cs "No search results found for \"" ++ query) ++ cs "\".")[23]? = some '.' := by
    rw [← h]; decide
  rw [List.getElem?_append_left hlt2, List.getElem?_append_left hlt1] at h23
  exact absurd h23 (by decide)

/-- Claim C10: when the upstream response carries no data, no results field, or
an empty results list, the web_search_exa handler returns the fixed non-error
message, which is independent of the query and is never the aggregator
query-naming empty-input message; moreover no successful output of the handler
ever equals that aggregator message, which is therefore unreachable through
this tool. -/
theorem webSearchRespond_empty_fixed (data : Option ExaResponseData) (query : List Char)
    (ai : Option Backend) (dateFmt : List Char → List Char) :
    ((data = none ∨ data = some ⟨none⟩ ∨ data = some ⟨some []⟩) →
        webSearchRespond data query ai dateFmt = .ok ⟨noResultsFixedMsg, false⟩)
    ∧ noResultsFixedMsg ≠ noResultsFor query
    ∧ (∀ out, webSearchRespond data query ai dateFmt = .ok out →
        out.text ≠ noResultsFor query) := by
  refine ⟨?_, fixedMsg_ne_noResultsFor query, ?_⟩
  · rintro (h | h | h) <;> subst h <;> rfl
  · intro out hout
    cases data with
    | none =>
      cases hout
      exact fixedMsg_ne_noResultsFor query
    | some d =>
      cases d with
      | mk resultsField =>
        cases resultsField with
        | none =>
          cases hout
          exact fixedMsg_ne_noResultsFor query
        | some rs =>
          cases rs with
          | nil =>
            cases hout
            exact fixedMsg_ne_noResultsFor query
          | cons r rest =>
            simp only [webSearchRespond] at hout
            cases hfmt : formatSearchResultsToMarkdown (some (r :: rest)) query ai dateFmt with
            | error e =>
              rw [hfmt] at hout
              cases hout
            | ok md =>
              rw [hfmt] at hout
              have hout2 : Except.ok (ε := Unit) (ToolOutput.mk md false) = .ok out := hout
              injection hout2 with hout3
              have hne0 : ¬(r :: rest).length = 0 := by simp
              simp only [formatSearchResultsToMarkdown] at hfmt
              rw [if_neg hne0] at hfmt
              cases hloop : renderLoop ai dateFmt ((r :: rest).take 10) (headerOf query) with
              | error e => rw [hloop] at hfmt; cases hfmt
              | ok body =>
                rw [hloop] at hfmt
                obtain ⟨tail, htail⟩ := renderLoop_extends ai dateFmt _ _ _ hloop
                injection hfmt with hmd
                have hhead : md.head? = some '#' := by
                  rw [← hmd, htail]
                  rfl
                cases hout3
                intro heq
                have heq' : md = noResultsFor query := heq
                rw [heq'] at hhead
                have hN : (noResultsFor query).head? = some 'N' := rfl
                rw [hN] at hhead
                exact absurd hhead (by decide)

/-- Witness for claim C10: an absent response body yields the fixed message
with no error flag, and that message differs from the aggregator message for
the query "foo". -/
theorem webSearchRespond_empty_fixed_witness :
    webSearchRespond none (cs "foo") none (fun d => d) = .ok ⟨noResultsFixedMsg, false⟩
    ∧ noResultsFixedMsg ≠ noResultsFor (cs "foo") := by
  have h := webSearchRespond_empty_fixed none (cs "foo") none (fun d => d)
  exact ⟨h.1 (Or.inl rfl), h.2.1⟩

end WebsearchMcp
